import Mathlib

/-!
Shallow embedding of `libs/partners/nvidia-trt/langchain_nvidia_trt/llms.py`
(class `TritonTensorRTLLM` and `StreamingResponseGenerator`).

Strings are modelled as Lean `String` / `List Char`; the queue shared between
the gRPC callback and the consumer is modelled as the list of values `put` on
it (in order); the consumer's pull loop is modelled as a recursion over that
list.  Wall-clock busy-wait polling is abstracted to one readiness query per
time tick.
-/

namespace TrtLLM

/- ------------------------------------------------------------------ -/
/- Batch trimmer: `_trim_batch_response` (llms.py lines 285-295)       -/
/- ------------------------------------------------------------------ -/

/-- Boolean prefix test on character lists (Python's `str.startswith`,
used to model `str.split` / `str.find`). -/
def isPrefixList : List Char → List Char → Bool
  | [], _ => true
  | _ :: _, [] => false
  | c :: cs, d :: ds => c = d && isPrefixList cs ds

/-- Index of the first occurrence of `pat` in `s`, `none` when absent.
Models Python's `str.find` (which returns -1 for absence) and the first
split point of `str.split(pat, 1)`. -/
def findSub : List Char → List Char → Option Nat
  | [], pat => if pat.isEmpty then some 0 else none
  | c :: t, pat =>
    if isPrefixList pat (c :: t) then some 0
    else (findSub t pat).map (· + 1)

/-- The instruction-closing delimiter `"[/INST]"` of `_trim_batch_response`. -/
def instDelim : List Char := "[/INST]".data

/-- The end-of-sequence marker `"</s>"` of `_trim_batch_response`. -/
def eosTok : List Char := "</s>".data

/-- ASCII whitespace stripped by Python's `str.strip()` (the claims only
exercise the ASCII fragment of Python's unicode whitespace set). -/
def isPySpace (c : Char) : Bool :=
  c = ' ' || c = '\t' || c = '\n' || c = '\r' || c = '\x0b' || c = '\x0c'

/-- Python `str.strip()`: drop whitespace from both ends. -/
def pyStrip (s : List Char) : List Char :=
  ((s.dropWhile isPySpace).reverse.dropWhile isPySpace).reverse

/-- `result_str.split("[/INST]", 1)` followed by taking the last element:
everything after the FIRST occurrence of the delimiter, the whole string
when the delimiter is absent (llms.py lines 289-290). -/
def afterFirstDelim (s : List Char) : List Char :=
  match findSub s instDelim with
  | none => s
  | some i => s.drop (i + instDelim.length)

/-- `generated.find("</s>")` then truncate-and-strip when found, identity
when absent (llms.py lines 291-295). -/
def trimContinuation (g : List Char) : List Char :=
  match findSub g eosTok with
  | none => g
  | some j => pyStrip (g.take j)

/-- `_trim_batch_response` on character lists. -/
def trimChars (s : List Char) : List Char :=
  trimContinuation (afterFirstDelim s)

/-- `TritonTensorRTLLM._trim_batch_response` (llms.py lines 285-295). -/
def trimBatchResponse (s : String) : String :=
  String.mk (trimChars s.data)

/- ------------------------------------------------------------------ -/
/- Streaming callback and consumer (llms.py lines 338-365, 376-405)    -/
/- ------------------------------------------------------------------ -/

/-- One invocation of the gRPC callback: either the transport reported an
error value, or it delivered a result chunk.  `outputs = some t` models a
response whose raw JSON has an `"outputs"` key whose `text_output` buffer
decodes (via `_process_result`) to the string `t`; `outputs = none` models
a chunk with no output buffer.  `finalFlag` models
`parameters.triton_final_response.bool_param`. -/
inductive ChunkEvent where
  | errorEvt (e : String)
  | dataEvt (outputs : Option String) (finalFlag : Bool)
deriving DecidableEq

/-- `TritonTensorRTLLM._stream_callback` (llms.py lines 338-365): the list
of values it `put`s on the result queue for one delivered chunk, in order.
`none` is the terminal sentinel (Python `None`); `some s` is a text token
or (first branch) the transport error value. -/
def streamCallback (forceBatch : Bool) (stopWords : List String)
    (c : ChunkEvent) : List (Option String) :=
  match c with
  | .errorEvt e => [some e]
  | .dataEvt outputs finalFlag =>
    let fromOutputs :=
      match outputs with
      | none => []
      | some t =>
        let response := if forceBatch then trimBatchResponse t else t
        if response ∈ stopWords then [none] else [some response]
    fromOutputs ++ (if finalFlag then [none] else [])

/-- Queue contents produced by delivering `chunks` to the callback in
order (the queue is strictly FIFO, single producer). -/
def processChunks (forceBatch : Bool) (stopWords : List String)
    (chunks : List ChunkEvent) : List (Option String) :=
  (chunks.map (streamCallback forceBatch stopWords)).flatten

/-- Outcome of the consumer's pull loop over the queue:
`tokens` are the values returned by successive `__next__` calls (yielded to
the caller), `stopped` records whether `StopIteration` was raised, and
`stopSignals` counts how many stop-signal requests (`_send_stop_signals`)
were issued to the server. -/
structure ConsumeResult where
  tokens : List String
  stopped : Bool
  stopSignals : Nat
deriving DecidableEq

/-- `StreamingResponseGenerator.__next__` driven in a loop until
`StopIteration` (llms.py lines 397-405): pull the next queue value; on the
sentinel or a stop word, call `stop_stream` (which sends a stop-signal
request exactly when `signal = not self._batch`) and stop; otherwise the
value — text or transport error alike — is returned as a token.  An
exhausted list models a consumer blocked forever on an empty queue
(`stopped = false`). -/
def consume (batch : Bool) (stopWords : List String) :
    List (Option String) → ConsumeResult
  | [] => ⟨[], false, 0⟩
  | none :: _ => ⟨[], true, if batch then 0 else 1⟩
  | some v :: rest =>
    if v ∈ stopWords then ⟨[], true, if batch then 0 else 1⟩
    else
      let r := consume batch stopWords rest
      ⟨v :: r.tokens, r.stopped, r.stopSignals⟩

/-- Same pull loop, but the consumer abandons iteration after at most
`maxPulls` calls to `__next__` (models the caller breaking out of the
`for token in result_queue` loop early; nothing else runs on that path). -/
def consumeN (batch : Bool) (stopWords : List String) :
    Nat → List (Option String) → ConsumeResult
  | 0, _ => ⟨[], false, 0⟩
  | _ + 1, [] => ⟨[], false, 0⟩
  | _ + 1, none :: _ => ⟨[], true, if batch then 0 else 1⟩
  | n + 1, some v :: rest =>
    if v ∈ stopWords then ⟨[], true, if batch then 0 else 1⟩
    else
      let r := consumeN batch stopWords n rest
      ⟨v :: r.tokens, r.stopped, r.stopSignals⟩

/-- The decoded (and, under forced batch, trimmed) text fragments of a
chunk sequence, in delivery order: one per chunk that carries an output
buffer. -/
def decodedFragments (forceBatch : Bool) (chunks : List ChunkEvent) :
    List String :=
  chunks.filterMap fun c =>
    match c with
    | .dataEvt (some t) _ => some (if forceBatch then trimBatchResponse t else t)
    | _ => none

/-- A chunk that is a data delivery with the final flag clear. -/
def isDataNonFinal : ChunkEvent → Bool
  | .dataEvt _ false => true
  | _ => false

/- ------------------------------------------------------------------ -/
/- Model loading: `_load_model` (llms.py lines 125-139)                -/
/- ------------------------------------------------------------------ -/

/-- Result of `_load_model`: whether `client.load_model` was called and
whether `TritonTensorRTRuntimeError` was raised. -/
structure LoadResult where
  loadRequested : Bool
  raised : Bool
deriving DecidableEq

/-- The busy-wait loop of `_load_model`: readiness queries are numbered
`i, i+1, ...` (one per clock tick, abstracting `time.perf_counter`), and
`fuel` ticks remain before the timeout bound elapses.  Returns the index
at which the final readiness re-check after the loop happens. -/
def loadLoop (isReady : Nat → Bool) : Nat → Nat → Nat
  | i, 0 => i
  | i, fuel + 1 => if isReady i then i + 1 else loadLoop isReady (i + 1) fuel

/-- `TritonTensorRTLLM._load_model` against a readiness oracle `isReady`
(the value `client.is_model_ready` returns at the t-th query): return at
once when already ready; otherwise issue one load request, poll until
ready or the timeout bound elapses, re-check, and raise when still not
ready. -/
def loadModel (isReady : Nat → Bool) (timeout : Nat) : LoadResult :=
  if isReady 0 then ⟨false, false⟩
  else ⟨true, !(isReady (loadLoop isReady 1 timeout))⟩

/- ------------------------------------------------------------------ -/
/- Batch request path: `_request`, `_generate` (llms.py 141-164, 208-226) -/
/- ------------------------------------------------------------------ -/

/-- `TritonTensorRTLLM._request` (llms.py lines 208-226): fail fast when
the model is not ready; otherwise join the decoded `text_output` pieces of
the server's reply and apply `_trim_batch_response` to the result. -/
def request (modelReady : Bool) (rawPieces : List String) :
    Except String String :=
  if !modelReady then
    Except.error "Cannot request streaming, model is not loaded"
  else
    Except.ok (trimBatchResponse (String.join rawPieces))

/-- `TritonTensorRTLLM._generate` (llms.py lines 141-164): after the model
load (whose possible timeout failure is `loadFails`), one `_request` per
prompt against the server's reply `server p`.  The `stop` parameter is
accepted but never read — the line using it is commented out in the
source (llms.py line 151). -/
def generate (loadFails : Bool) (modelReady : Bool)
    (server : String → List String) (prompts : List String)
    (stop : Option (List String)) : Except String (List String) :=
  if loadFails then Except.error "model load timeout"
  else prompts.mapM fun p => request modelReady (server p)

/- ------------------------------------------------------------------ -/
/- Tensor request builder: `_prepare_tensor`, `_generate_inputs`       -/
/- (llms.py lines 234-283)                                             -/
/- ------------------------------------------------------------------ -/

/-- Payload of a numpy array as built by `_generate_inputs`.  Unsigned
integer casts wrap as in `np.astype`; the float32 payloads keep the exact
rational parameter value (IEEE-754 rounding by `astype(np.float32)` is not
modelled — the claims about these buffers concern only name, element type
and shape). -/
inductive TensorData where
  | text (s : String)
  | u32 (n : Nat)
  | u64 (n : Nat)
  | f32 (q : Rat)
  | boolv (b : Bool)
deriving DecidableEq

/-- A numpy array: dtype name, shape, payload. -/
structure NpArray where
  dtype : String
  shape : List Nat
  payload : TensorData
deriving DecidableEq

/-- A Triton `InferInput`: name, wire datatype, shape, payload. -/
structure InferInput where
  name : String
  datatype : String
  shape : List Nat
  payload : TensorData
deriving DecidableEq

/-- `tritonclient.utils.np_to_triton_dtype` on the dtypes used here. -/
def npToTritonDtype : String → String
  | "object" => "BYTES"
  | "uint32" => "UINT32"
  | "float32" => "FP32"
  | "uint64" => "UINT64"
  | "bool" => "BOOL"
  | _ => "UNKNOWN"

/-- `TritonTensorRTLLM._prepare_tensor` (llms.py lines 234-243): an
`InferInput` named `name` whose shape and wire datatype come from the
array. -/
def prepareTensor (name : String) (arr : NpArray) : InferInput :=
  ⟨name, npToTritonDtype arr.dtype, arr.shape, arr.payload⟩

/-- `TritonTensorRTLLM._generate_inputs` (llms.py lines 245-283).  The
prompt arrives as the 1×1 batch `[[prompt]]` (shape `[1, 1]`, dtype
object); every scalar parameter becomes a 1-element array reshaped to
`(1, -1)`, i.e. shape `[1, 1]`; `seed` is the model's `self.seed`. -/
def generateInputs (seed : Nat) (prompt : String) (tokens : Nat)
    (temperature : Rat) (topK : Nat) (topP : Rat) (beamWidth : Nat)
    (repetitionPenalty : Rat) (lengthPenalty : Rat) (stream : Bool) :
    List InferInput :=
  let query : NpArray := ⟨"object", [1, 1], .text prompt⟩
  let requestOutputLen : NpArray := ⟨"uint32", [1, 1], .u32 (tokens % 2 ^ 32)⟩
  let runtimeTopK : NpArray := ⟨"uint32", [1, 1], .u32 (topK % 2 ^ 32)⟩
  let runtimeTopP : NpArray := ⟨"float32", [1, 1], .f32 topP⟩
  let temperatureArray : NpArray := ⟨"float32", [1, 1], .f32 temperature⟩
  let lenPenalty : NpArray := ⟨"float32", [1, 1], .f32 lengthPenalty⟩
  let repetitionPenaltyArray : NpArray :=
    ⟨"float32", [1, 1], .f32 repetitionPenalty⟩
  let randomSeed : NpArray := ⟨"uint64", [1, 1], .u64 (seed % 2 ^ 64)⟩
  let beamWidthArray : NpArray := ⟨"uint32", [1, 1], .u32 (beamWidth % 2 ^ 32)⟩
  let streamingData : NpArray := ⟨"bool", [1, 1], .boolv stream⟩
  [prepareTensor "text_input" query,
   prepareTensor "max_tokens" requestOutputLen,
   prepareTensor "top_k" runtimeTopK,
   prepareTensor "top_p" runtimeTopP,
   prepareTensor "temperature" temperatureArray,
   prepareTensor "length_penalty" lenPenalty,
   prepareTensor "repetition_penalty" repetitionPenaltyArray,
   prepareTensor "random_seed" randomSeed,
   prepareTensor "beam_width" beamWidthArray,
   prepareTensor "stream" streamingData]

/- ------------------------------------------------------------------ -/
/- Theorems                                                            -/
/- ------------------------------------------------------------------ -/

/-- C9: for every valid parameter set, `_generate_inputs` produces exactly
the ten named buffers of the wire contract — `text_input` (BYTES, 1×1
batch), `max_tokens`/`top_k`/`beam_width` (uint32), `top_p`/`temperature`/
`length_penalty`/`repetition_penalty` (float32), `random_seed` (uint64),
`stream` (bool) — each appearing exactly once with singleton shape. -/
theorem generate_inputs_contract (seed : Nat) (prompt : String) (tokens : Nat)
    (temperature : Rat) (topK : Nat) (topP : Rat) (beamWidth : Nat)
    (repetitionPenalty : Rat) (lengthPenalty : Rat) (stream : Bool) :
    (generateInputs seed prompt tokens temperature topK topP beamWidth
        repetitionPenalty lengthPenalty stream).map
      (fun t => (t.name, t.datatype, t.shape)) =
      [("text_input", "BYTES", [1, 1]), ("max_tokens", "UINT32", [1, 1]),
       ("top_k", "UINT32", [1, 1]), ("top_p", "FP32", [1, 1]),
       ("temperature", "FP32", [1, 1]), ("length_penalty", "FP32", [1, 1]),
       ("repetition_penalty", "FP32", [1, 1]),
       ("random_seed", "UINT64", [1, 1]), ("beam_width", "UINT32", [1, 1]),
       ("stream", "BOOL", [1, 1])] ∧
    ((generateInputs seed prompt tokens temperature topK topP beamWidth
        repetitionPenalty lengthPenalty stream).map
      (fun t => t.name)).Nodup := by
  refine ⟨rfl, ?_⟩
  have hn : (generateInputs seed prompt tokens temperature topK topP beamWidth
      repetitionPenalty lengthPenalty stream).map (fun t => t.name) =
      ["text_input", "max_tokens", "top_k", "top_p", "temperature",
       "length_penalty", "repetition_penalty", "random_seed", "beam_width",
       "stream"] := rfl
  rw [hn]
  decide

/-- C10: `_generate` never reads its `stop` argument (the line that would
is commented out), so batch generation is identical under any two values
of the stop argument, for the same prompts and server responses. -/
theorem generate_independent_of_stop (loadFails modelReady : Bool)
    (server : String → List String) (prompts : List String)
    (stop₁ stop₂ : Option (List String)) :
    generate loadFails modelReady server prompts stop₁ =
      generate loadFails modelReady server prompts stop₂ := rfl

/-- C2 (code bug): when the callback is invoked with a transport error,
the error value is pushed onto the queue, but the consumer's `__next__`
returns it as a normal text token (it is neither raised nor terminal):
here the stream continues past the error and yields a further token. -/
theorem error_chunk_returned_as_token :
    streamCallback false ["</s>"] (.errorEvt "transport failed") =
      [some "transport failed"] ∧
    consume false ["</s>"] [some "transport failed", some "tok", none] =
      ⟨["transport failed", "tok"], true, 1⟩ := by
  exact ⟨rfl, by decide⟩

/-- C5: a final-flagged data chunk always makes the callback push the
terminal sentinel as the last queue entry, whether or not the chunk
carried an output buffer or a text payload. -/
theorem final_chunk_pushes_sentinel_last (fb : Bool) (sw : List String)
    (outputs : Option String) :
    streamCallback fb sw (.dataEvt outputs true) ≠ [] ∧
    (streamCallback fb sw (.dataEvt outputs true)).getLast? = some none := by
  cases outputs with
  | none => exact ⟨by simp [streamCallback], rfl⟩
  | some t =>
    constructor
    · simp [streamCallback]
    · simp [streamCallback]

/-- C6 (counterexample): a consumer that abandons the stream after one
pull — an exit path on which no sentinel or stop word was dequeued —
causes zero stop-signal requests, not exactly one. -/
theorem abandoned_stream_sends_no_stop_signal :
    (consumeN false [] 1 [some "a", none]).stopped = false ∧
    ¬ (consumeN false [] 1 [some "a", none]).stopSignals = 1 := by decide

/-- C6 (amended): a stop-signal request is issued exactly when the
consumer's pull loop dequeues a terminal value (sentinel or stop word)
outside forced-batch mode — exactly one in that case, and zero on early
abandonment or in forced-batch mode. -/
theorem stop_signal_iff_terminal_pull (b : Bool) (sw : List String)
    (n : Nat) (q : List (Option String)) :
    (consumeN b sw n q).stopSignals =
      if (consumeN b sw n q).stopped = true ∧ b = false then 1 else 0 := by
  induction n generalizing q with
  | zero => simp [consumeN]
  | succ n ih =>
    cases q with
    | nil => simp [consumeN]
    | cons x rest =>
      cases x with
      | none => cases b <;> simp [consumeN]
      | some v =>
        by_cases hv : v ∈ sw
        · cases b <;> simp [consumeN, hv]
        · simp [consumeN, hv, ih]

/-- C8 (counterexample): `_request` — the true single-shot batch path —
does apply the batch-trimming rule: the decoded response
`"x[/INST] hi</s> y"` comes back as `"hi"`, not unmodified. -/
theorem batch_request_trims_counterexample :
    request true ["x[/INST] hi</s> y"] = Except.ok "hi" ∧
    "hi" ≠ "x[/INST] hi</s> y" := by
  exact ⟨rfl, by decide⟩

/-- C8 (amended): the batch-trimming rule is applied both in forced-batch
streaming emulation (when `force_batch` is set on the callback) and on
every single-shot batch request: `_request` returns the trimmed joined
response, and the callback trims exactly when `force_batch` is set. -/
theorem trim_applied_on_batch_and_forced_stream :
    (∀ raws : List String,
        request true raws = Except.ok (trimBatchResponse (String.join raws))) ∧
    (∀ (sw : List String) (t : String) (f : Bool),
        streamCallback true sw (.dataEvt (some t) f) =
          (if trimBatchResponse t ∈ sw then [none]
            else [some (trimBatchResponse t)]) ++ (if f then [none] else []) ∧
        streamCallback false sw (.dataEvt (some t) f) =
          (if t ∈ sw then [none] else [some t]) ++ (if f then [none] else [])) :=
  ⟨fun _ => rfl, fun _ _ _ => ⟨rfl, rfl⟩⟩

/-- C3 (counterexample): `_trim_batch_response` keeps everything after
the FIRST `"[/INST]"`, not the last, and when `"</s>"` is absent it
returns the continuation unmodified — including its leading space — so
the spec's third example value is also off. -/
theorem trim_last_occurrence_counterexample :
    (trimBatchResponse "x[/INST]a[/INST]b" = "a[/INST]b" ∧
      trimBatchResponse "x[/INST]a[/INST]b" ≠ "b") ∧
    (trimBatchResponse "...[/INST] no end token" = " no end token" ∧
      trimBatchResponse "...[/INST] no end token" ≠ "no end token") := by
  exact ⟨⟨by decide, by decide⟩, ⟨by decide, by decide⟩⟩

/- Helper lemmas for the streaming-order claims. -/

lemma decodedFragments_append (fb : Bool) (xs ys : List ChunkEvent) :
    decodedFragments fb (xs ++ ys) =
      decodedFragments fb xs ++ decodedFragments fb ys := by
  simp [decodedFragments]

lemma processChunks_append (fb : Bool) (sw : List String)
    (xs ys : List ChunkEvent) :
    processChunks fb sw (xs ++ ys) =
      processChunks fb sw xs ++ processChunks fb sw ys := by
  simp [processChunks]

/-- Pulling a run of non-stop-word tokens yields them all, then the loop
continues on the rest of the queue. -/
lemma consume_map_some_append (b : Bool) (sw : List String)
    (ts : List String) (q : List (Option String))
    (h : ∀ t ∈ ts, t ∉ sw) :
    consume b sw (ts.map some ++ q) =
      ⟨ts ++ (consume b sw q).tokens, (consume b sw q).stopped,
        (consume b sw q).stopSignals⟩ := by
  induction ts with
  | nil => simp [consume]
  | cons t ts ih =>
    have ht : t ∉ sw := h t (List.mem_cons_self t ts)
    have ih' := ih fun x hx => h x (List.mem_cons_of_mem _ hx)
    simp [consume, ht, ih']

/-- Data chunks without the final flag whose fragments avoid the stop
words are pushed verbatim, one queue entry per fragment. -/
lemma processChunks_nonfinal (fb : Bool) (sw : List String) :
    ∀ body : List ChunkEvent,
      (∀ c ∈ body, isDataNonFinal c = true) →
      (∀ t ∈ decodedFragments fb body, t ∉ sw) →
      processChunks fb sw body = (decodedFragments fb body).map some := by
  intro body
  induction body with
  | nil => intro _ _; rfl
  | cons c cs ih =>
    intro hb hs
    have hc := hb c (List.mem_cons_self c cs)
    cases c with
    | errorEvt e => simp [isDataNonFinal] at hc
    | dataEvt outputs finalFlag =>
      cases finalFlag with
      | true => simp [isDataNonFinal] at hc
      | false =>
        have hbcs : ∀ x ∈ cs, isDataNonFinal x = true :=
          fun x hx => hb x (List.mem_cons_of_mem _ hx)
        cases outputs with
        | none =>
          have hscs : ∀ t ∈ decodedFragments fb cs, t ∉ sw := by
            intro t ht
            exact hs t (by simpa [decodedFragments] using ht)
          simpa [processChunks, streamCallback, decodedFragments]
            using ih hbcs hscs
        | some t =>
          have hresp : (if fb then trimBatchResponse t else t) ∉ sw := by
            apply hs
            simp [decodedFragments]
          have hscs : ∀ x ∈ decodedFragments fb cs, x ∉ sw := by
            intro x hx
            apply hs
            simp [decodedFragments]
            right
            simpa [decodedFragments] using hx
          simpa [processChunks, streamCallback, decodedFragments, hresp]
            using ih hbcs hscs

/-- C1: an error-free streamed chunk sequence, ending with its single
final-flagged chunk, whose decoded (and, under forced batch, trimmed)
fragments never equal a stop word, is observed by the consumer as exactly
those fragments in delivery order, after which the iterator raises its
single end-of-sequence signal (and sends the stop signal unless in
forced-batch mode). -/
theorem stream_yields_fragments_in_order (fb : Bool) (sw : List String)
    (body : List ChunkEvent) (lastOutputs : Option String)
    (hbody : ∀ c ∈ body, isDataNonFinal c = true)
    (hstop : ∀ t ∈ decodedFragments fb (body ++ [.dataEvt lastOutputs true]),
      t ∉ sw) :
    consume fb sw (processChunks fb sw (body ++ [.dataEvt lastOutputs true])) =
      ⟨decodedFragments fb (body ++ [.dataEvt lastOutputs true]), true,
        if fb then 0 else 1⟩ := by
  have hsBody : ∀ t ∈ decodedFragments fb body, t ∉ sw := by
    intro t ht
    apply hstop
    rw [decodedFragments_append]
    exact List.mem_append_left _ ht
  rw [processChunks_append, processChunks_nonfinal fb sw body hbody hsBody]
  cases lastOutputs with
  | none =>
    have hlast : processChunks fb sw [.dataEvt none true] = [none] := rfl
    rw [hlast, consume_map_some_append fb sw _ [none] hsBody]
    have hc : consume fb sw [none] =
        ⟨[], true, if fb then 0 else 1⟩ := rfl
    rw [hc]
    simp [decodedFragments_append, decodedFragments]
  | some t =>
    have hresp : (if fb then trimBatchResponse t else t) ∉ sw := by
      apply hstop
      rw [decodedFragments_append]
      apply List.mem_append_right
      simp [decodedFragments]
    have hlast : processChunks fb sw [.dataEvt (some t) true] =
        [some (if fb then trimBatchResponse t else t), none] := by
      simp [processChunks, streamCallback, hresp]
    rw [hlast]
    have happ : (decodedFragments fb body).map some ++
        [some (if fb then trimBatchResponse t else t), none] =
        ((decodedFragments fb body ++
          [if fb then trimBatchResponse t else t]).map some) ++ [none] := by
      simp
    rw [happ, consume_map_some_append fb sw _ [none] ?hall]
    case hall =>
      intro x hx
      rcases List.mem_append.mp hx with hx | hx
      · exact hsBody x hx
      · rw [List.mem_singleton.mp hx]; exact hresp
    have hc : consume fb sw [none] = ⟨[], true, if fb then 0 else 1⟩ := rfl
    rw [hc]
    simp [decodedFragments_append, decodedFragments]

/-- Witness for C1 at a concrete three-chunk stream. -/
theorem stream_yields_fragments_in_order_witness :
    (∀ c ∈ [ChunkEvent.dataEvt (some "Hello") false,
            ChunkEvent.dataEvt (some " wor") false],
      isDataNonFinal c = true) ∧
    (∀ t ∈ decodedFragments false
        ([ChunkEvent.dataEvt (some "Hello") false,
          ChunkEvent.dataEvt (some " wor") false] ++
          [ChunkEvent.dataEvt (some "ld!") true]), t ∉ ["</s>"]) ∧
    consume false ["</s>"] (processChunks false ["</s>"]
        ([ChunkEvent.dataEvt (some "Hello") false,
          ChunkEvent.dataEvt (some " wor") false] ++
          [ChunkEvent.dataEvt (some "ld!") true])) =
      ⟨decodedFragments false
        ([ChunkEvent.dataEvt (some "Hello") false,
          ChunkEvent.dataEvt (some " wor") false] ++
          [ChunkEvent.dataEvt (some "ld!") true]), true, 1⟩ :=
  ⟨by decide, by decide,
    stream_yields_fragments_in_order false ["</s>"]
      [ChunkEvent.dataEvt (some "Hello") false,
       ChunkEvent.dataEvt (some " wor") false] (some "ld!")
      (by decide) (by decide)⟩

/-- C4: a chunk whose decoded (and, under forced batch, trimmed) text
equals a configured stop word makes the callback push the terminal
sentinel instead of the text (two sentinels when the chunk is also
final-flagged), and the consumer's very next pull ends the stream with no
token yielded, whatever else is behind it in the queue. -/
theorem stop_word_never_yielded (fb : Bool) (sw : List String) (t : String)
    (f : Bool) (q : List (Option String))
    (h : (if fb then trimBatchResponse t else t) ∈ sw) :
    streamCallback fb sw (.dataEvt (some t) f) =
      (if f then [none, none] else [none]) ∧
    consume fb sw (streamCallback fb sw (.dataEvt (some t) f) ++ q) =
      ⟨[], true, if fb then 0 else 1⟩ := by
  have h1 : streamCallback fb sw (.dataEvt (some t) f) =
      if f then [none, none] else [none] := by
    simp only [streamCallback]
    rw [if_pos h]
    cases f <;> rfl
  refine ⟨h1, ?_⟩
  rw [h1]
  cases f <;> simp [consume]

/-- Witness for C4: the fragment `"</s>"` is a stop word; it is replaced
by the sentinel and the stream ends at once. -/
theorem stop_word_never_yielded_witness :
    ((if false then trimBatchResponse "</s>" else "</s>") ∈
      (["</s>"] : List String)) ∧
    (streamCallback false ["</s>"] (.dataEvt (some "</s>") false) = [none] ∧
      consume false ["</s>"]
        (streamCallback false ["</s>"] (.dataEvt (some "</s>") false) ++ []) =
        ⟨[], true, 1⟩) :=
  ⟨by decide, stop_word_never_yielded false ["</s>"] "</s>" false [] (by decide)⟩

/- Helper lemmas for the first-occurrence characterization of the
batch trimmer. -/

lemma isPrefixList_self_append (p b : List Char) :
    isPrefixList p (p ++ b) = true := by
  induction p with
  | nil => rfl
  | cons c cs ih => simp [isPrefixList, ih]

lemma findSub_eq_none (pat : List Char) (hpat : pat ≠ []) :
    ∀ s : List Char,
      (∀ j, j < s.length → isPrefixList pat (s.drop j) = false) →
      findSub s pat = none := by
  intro s
  induction s with
  | nil =>
    intro _
    cases pat with
    | nil => exact absurd rfl hpat
    | cons p ps => rfl
  | cons c t ih =>
    intro h
    have h0 : isPrefixList pat (c :: t) = false := by
      simpa using h 0 (by simp)
    have ht : findSub t pat = none :=
      ih fun j hj => by simpa using h (j + 1) (by simpa using hj)
    simp [findSub, h0, ht]

lemma findSub_first_at (pat : List Char) (hpat : pat ≠ []) :
    ∀ a b : List Char,
      (∀ j, j < a.length →
        isPrefixList pat ((a ++ (pat ++ b)).drop j) = false) →
      findSub (a ++ (pat ++ b)) pat = some a.length := by
  intro a
  induction a with
  | nil =>
    intro b _
    cases pat with
    | nil => exact absurd rfl hpat
    | cons p ps =>
      have hpre : isPrefixList (p :: ps) ((p :: ps) ++ b) = true :=
        isPrefixList_self_append (p :: ps) b
      simpa [findSub] using hpre
  | cons c a' ih =>
    intro b h
    have h0 : isPrefixList pat (c :: (a' ++ (pat ++ b))) = false := by
      simpa using h 0 (by simp)
    have ih' := ih b fun j hj => by
      simpa using h (j + 1) (by simp; omega)
    simp [findSub, h0, ih']

/-- C3 (amended): the batch trimmer keeps everything after the FIRST
occurrence of `"[/INST]"` (the whole string when the delimiter is absent)
and then applies the end-of-sequence step to that continuation: truncate
at `"</s>"` and strip whitespace when the marker occurs, return the
continuation unmodified (leading whitespace included) when it does not;
the spec's examples hold with the third corrected to keep its leading
space. -/
theorem trim_first_occurrence_spec :
    (∀ s : List Char,
        (∀ j, j < s.length → isPrefixList instDelim (s.drop j) = false) →
        trimChars s = trimContinuation s) ∧
    (∀ a b : List Char,
        (∀ j, j < a.length →
          isPrefixList instDelim ((a ++ (instDelim ++ b)).drop j) = false) →
        trimChars (a ++ (instDelim ++ b)) = trimContinuation b) ∧
    trimBatchResponse "...[/INST] hello world</s> extra" = "hello world" ∧
    trimBatchResponse "no delimiter text" = "no delimiter text" ∧
    trimBatchResponse "...[/INST] no end token" = " no end token" := by
  refine ⟨?_, ?_, by decide, by decide, by decide⟩
  · intro s h
    have hn : findSub s instDelim = none :=
      findSub_eq_none instDelim (by decide) s h
    simp [trimChars, afterFirstDelim, hn]
  · intro a b h
    have hf : findSub (a ++ (instDelim ++ b)) instDelim = some a.length :=
      findSub_first_at instDelim (by decide) a b h
    have hd : (a ++ (instDelim ++ b)).drop (a.length + instDelim.length) = b := by
      rw [← List.append_assoc, ← List.length_append a instDelim]
      exact List.drop_left _ _
    simp [trimChars, afterFirstDelim, hf, hd]

/-- Witness for C3 (amended), applying both characterization conjuncts at
concrete strings. -/
theorem trim_first_occurrence_spec_witness :
    (∀ j, j < ("no delimiter text".data).length →
        isPrefixList instDelim (("no delimiter text".data).drop j) = false) ∧
    trimChars "no delimiter text".data =
      trimContinuation "no delimiter text".data ∧
    trimChars ("x".data ++ (instDelim ++ "a[/INST]b".data)) =
      trimContinuation "a[/INST]b".data :=
  ⟨by decide,
    trim_first_occurrence_spec.1 "no delimiter text".data (by decide),
    (trim_first_occurrence_spec.2.1 "x".data "a[/INST]b".data (by decide))⟩

/- Helper lemma for the model-load claim. -/

lemma loadLoop_ready_iff (isReady : Nat → Bool)
    (hm : ∀ i j, i ≤ j → isReady i = true → isReady j = true) :
    ∀ fuel i : Nat,
      (isReady (loadLoop isReady i fuel) = true ↔
        ∃ j, i ≤ j ∧ j ≤ i + fuel ∧ isReady j = true) := by
  intro fuel
  induction fuel with
  | zero =>
    intro i
    have hz : loadLoop isReady i 0 = i := rfl
    rw [hz]
    constructor
    · intro h; exact ⟨i, Nat.le_refl i, by omega, h⟩
    · rintro ⟨j, h1, h2, hj⟩
      have hji : j = i := by omega
      rw [← hji]
      exact hj
  | succ fuel ih =>
    intro i
    have hstep : loadLoop isReady i (fuel + 1) =
        if isReady i then i + 1 else loadLoop isReady (i + 1) fuel := rfl
    cases hri : isReady i with
    | true =>
      have hloop : loadLoop isReady i (fuel + 1) = i + 1 := by
        rw [hstep, hri]
        rfl
      rw [hloop]
      constructor
      · intro _; exact ⟨i, Nat.le_refl i, by omega, hri⟩
      · intro _; exact hm i (i + 1) (by omega) hri
    | false =>
      have hloop : loadLoop isReady i (fuel + 1) =
          loadLoop isReady (i + 1) fuel := by
        rw [hstep, hri]
        rfl
      rw [hloop, ih (i + 1)]
      constructor
      · rintro ⟨j, h1, h2, hj⟩
        exact ⟨j, by omega, by omega, hj⟩
      · rintro ⟨j, h1, h2, hj⟩
        have hne : j ≠ i := by
          intro he
          rw [he, hri] at hj
          cases hj
        exact ⟨j, by omega, by omega, hj⟩

/-- C7: `_load_model` is idempotent — when the model is already ready it
returns at once without a load request; otherwise it issues one load
request and polls; against a monotone readiness oracle (once ready,
always ready) it raises the model-load-timeout error exactly when
readiness is not reached within the polling bound. -/
theorem load_model_spec (isReady : Nat → Bool) (timeout : Nat)
    (hm : ∀ i j, i ≤ j → isReady i = true → isReady j = true) :
    (isReady 0 = true → loadModel isReady timeout = ⟨false, false⟩) ∧
    (isReady 0 = false → (loadModel isReady timeout).loadRequested = true) ∧
    ((loadModel isReady timeout).raised = true ↔
      ∀ i, i ≤ timeout + 1 → isReady i = false) := by
  cases h0 : isReady 0 with
  | true =>
    have hlm : loadModel isReady timeout = ⟨false, false⟩ := by
      simp [loadModel, h0]
    refine ⟨?_, ?_, ?_⟩
    · intro _; exact hlm
    · intro h; cases h
    rw [hlm]
    constructor
    · intro h; cases h
    · intro h
      have h2 := h 0 (by omega)
      rw [h0] at h2
      cases h2
  | false =>
    have hlm : loadModel isReady timeout =
        ⟨true, !(isReady (loadLoop isReady 1 timeout))⟩ := by
      simp [loadModel, h0]
    have hl := loadLoop_ready_iff isReady hm timeout 1
    refine ⟨?_, ?_, ?_⟩
    · intro h; cases h
    · intro _; rw [hlm]
    rw [hlm]
    show (!(isReady (loadLoop isReady 1 timeout))) = true ↔ _
    constructor
    · intro h i hi
      cases hri : isReady i with
      | false => rfl
      | true =>
        rcases Nat.eq_zero_or_pos i with hz | hp
        · rw [hz, h0] at hri; cases hri
        · have hx : isReady (loadLoop isReady 1 timeout) = true :=
            hl.mpr ⟨i, by omega, by omega, hri⟩
          rw [hx] at h
          cases h
    · intro hall
      have hno : isReady (loadLoop isReady 1 timeout) = false := by
        cases hri : isReady (loadLoop isReady 1 timeout) with
        | false => rfl
        | true =>
          rcases hl.mp hri with ⟨j, hj1, hj2, hj⟩
          rw [hall j (by omega)] at hj
          cases hj
      rw [hno]
      rfl

/-- Witness for C7: a model that becomes ready at the second poll — the
load is requested, and no timeout error is raised. -/
theorem load_model_spec_witness :
    ((fun i => decide (2 ≤ i)) 0 = false) ∧
    (loadModel (fun i => decide (2 ≤ i)) 5).loadRequested = true :=
  ⟨rfl,
    (load_model_spec (fun i => decide (2 ≤ i)) 5
      (fun i j hij hi => by
        simp only [decide_eq_true_eq] at hi ⊢
        omega)).2.1 rfl⟩

end TrtLLM
